import Mathlib

/-!
Verification development for the solidity multi-part verification service.

The embedding follows the three source files:
  * `smart-contract-verifier/src/solidity/multi_part.rs` — the request data
    model, the candidate builder (`From<MultiFileContent> for Vec<CompilerInput>`),
    the metadata-variant generator (`settings_metadata`), the deployed-bytecode
    fetch (`get_Code`) and the orchestrator (`verify`);
  * `smart-contract-verifier-http/src/handlers/solidity_multi_part.rs` and
    `solidity_standard_json.rs` — the HTTP handlers' error classification.

Types that the source imports from sibling crates of the repository that are
not part of the provided sources (`crate::verifier::{Error, Success}`,
`crate::compiler::Version`) are modelled from the spec, as documented on each.
Collaborators from external crates (`ethers_solc`, `web3_rpc`) are embedded to
the extent the claims touch them: the external verifier capability and the RPC
capability are parameters of the orchestrator model.
-/

set_option autoImplicit false

namespace EvmosContracts

/-- Modelled from the spec: `crate::compiler::Version` (§4.5) — a parsed
semantic-version identifier supporting range comparison; the optional
build/commit suffix does not participate in ordering, so it is omitted. -/
structure Version where
  major : Nat
  minor : Nat
  patch : Nat
  deriving DecidableEq, Repr

/-- Semver range test for the requirement string `"<0.6.0"`:
lexicographic comparison of (major, minor, patch) against (0, 6, 0),
mirroring `VersionReq::parse("<0.6.0").unwrap().matches(v)`. -/
def Version.ltV060 (v : Version) : Bool :=
  v.major < 0 || (v.major == 0 && (v.minor < 6 || (v.minor == 6 && v.patch < 0)))

/-- `ethers_solc::artifacts::BytecodeHash` — metadata-hash algorithm choice. -/
inductive BytecodeHash where
  | Ipfs
  | None
  | Bzzr1
  deriving DecidableEq, Repr

/-- `ethers_solc::artifacts::SettingsMetadata`, as produced by
`SettingsMetadata::from(hash)`: carries the chosen bytecode-hash algorithm. -/
structure SettingsMetadata where
  bytecodeHash : BytecodeHash
  deriving DecidableEq, Repr

/-- `ethers_solc::EvmVersion` (only the tags the sources exercise matter; the
claims never inspect the tag). -/
inductive EvmVersion where
  | homestead
  | tangerineWhistle
  | spuriousDragon
  | byzantium
  | constantinople
  | petersburg
  | istanbul
  | berlin
  | london
  deriving DecidableEq, Repr

/-- `ethers_solc::artifacts::Optimizer` — the optimizer sub-settings. -/
structure Optimizer where
  enabled : Option Bool
  runs : Option Nat
  deriving DecidableEq, Repr

/-- `ethers_solc::artifacts::Settings`.  The per-file library table
(`Libraries { libs }`) is an association list from file path to the
library-name → address map, itself an association list.  Fields of the
external `Settings` type no claim mentions (output selection, remappings,
stop-after, via-IR, debug) are omitted. -/
structure Settings where
  optimizer : Optimizer
  evm_version : Option EvmVersion
  libraries : List (String × List (String × String))
  metadata : Option SettingsMetadata
  deriving DecidableEq, Repr

/-- `Settings::default()` — optimizer fields unset, no EVM version, empty
library table, no metadata selection. -/
def Settings.default : Settings :=
  { optimizer := { enabled := Option.none, runs := Option.none }
    evm_version := Option.none
    libraries := []
    metadata := Option.none }

/-- Suffix test on strings, recursing over the character data (the semantics
of `str::ends_with` / `Path::extension` checks on the paths we model). -/
def strEndsWith (s suffix : String) : Bool :=
  List.isSuffixOf suffix.data s.data

/-- ASCII lowercasing of one character; on the ASCII address strings the
claims are about, this coincides with Rust's Unicode `to_lowercase`. -/
def charLower (c : Char) : Char :=
  if 'A' ≤ c && c ≤ 'Z' then Char.ofNat (c.toNat + 32) else c

/-- `str::to_lowercase` restricted to ASCII. -/
def strToLower (s : String) : String :=
  String.mk (s.data.map charLower)

/-- Compiler-input language tag (`"Solidity"` / `"Yul"`). -/
inductive Language where
  | Solidity
  | Yul
  deriving DecidableEq, Repr

/-- A single source file's content (`ethers_solc::artifacts::Source`). -/
structure Source where
  content : String
  deriving DecidableEq, Repr

/-- `ethers_solc::CompilerInput` — one fully specified compiler invocation
document: language tag, path → source map, settings. -/
structure CompilerInput where
  language : Language
  sources : List (String × Source)
  settings : Settings
  deriving DecidableEq, Repr

/-- `CompilerInput::with_sources(sources)`: partition the sources by dialect
(files whose path has extension `yul` go to a `Yul` input, every other file to
a `Solidity` input), emit the `Solidity` input first, then the `Yul` input,
skipping empty partitions; each carries default settings. -/
def CompilerInput.with_sources (sources : List (String × Source)) : List CompilerInput :=
  let yulSources := sources.filter (fun kv => strEndsWith kv.1 ".yul")
  let soliditySources := sources.filter (fun kv => !strEndsWith kv.1 ".yul")
  (if soliditySources.isEmpty then []
   else [{ language := Language.Solidity, sources := soliditySources,
           settings := Settings.default }]) ++
  (if yulSources.isEmpty then []
   else [{ language := Language.Yul, sources := yulSources,
           settings := Settings.default }])

/-- `ethers_solc::CompilerInput::settings` builder method: replace the
settings wholesale. -/
def CompilerInput.withSettings (input : CompilerInput) (s : Settings) : CompilerInput :=
  { input with settings := s }

/-- `MultiFileContent` from `solidity/multi_part.rs`: the multi-part request
content.  `sources` is a `BTreeMap<PathBuf, String>` embedded as an
association list of (path, source text). -/
structure MultiFileContent where
  sources : List (String × String)
  evm_version : Option EvmVersion
  optimization_runs : Option Nat
  contract_libraries : Option (List (String × String))
  deriving DecidableEq, Repr

/-- `impl From<MultiFileContent> for Vec<CompilerInput>`: build the settings
(optimizer enabled iff an optimization-run count was supplied, run count
passed through; when a library map is supplied attach the full map to every
source file's entry of the library table; EVM version passed through), then
partition the sources into compiler inputs and give each input a clone of the
settings. -/
def MultiFileContent.toCompilerInputs (content : MultiFileContent) : List CompilerInput :=
  let settings0 := Settings.default
  let settings1 : Settings := { settings0 with
    optimizer := { enabled := some content.optimization_runs.isSome,
                   runs := content.optimization_runs } }
  -- we have to know filename for library, but we don't know,
  -- so we assume that every file MAY contains all libraries
  let settings2 : Settings :=
    match content.contract_libraries with
    | some libs =>
        { settings1 with
          libraries := content.sources.map (fun kv => (kv.1, libs)) }
    | Option.none => settings1
  let settings3 := { settings2 with evm_version := content.evm_version }
  let sources : List (String × Source) :=
    content.sources.map (fun kv => (kv.1, Source.mk kv.2))
  (CompilerInput.with_sources sources).map
    (fun input => input.withSettings settings3)

/-- `settings_metadata(compiler_version)`: for versions matched by `<0.6.0`
return the single no-selection variant, otherwise one variant per bytecode
hash in the fixed order `[Ipfs, None, Bzzr1]`. -/
def settings_metadata (compiler_version : Version) : List (Option SettingsMetadata) :=
  let BYTECODE_HASHES : List BytecodeHash :=
    [BytecodeHash.Ipfs, BytecodeHash.None, BytecodeHash.Bzzr1]
  if compiler_version.ltV060 then
    [Option.none]
  else
    BYTECODE_HASHES.map (fun hash => some { bytecodeHash := hash })

/-- Modelled from the spec: `crate::verifier::Error` — the closed error
taxonomy of §7; variant names and payload arity are as matched by the HTTP
handlers (`Compilation(_)`, `NoMatchingContracts`,
`CompilerVersionMismatch(_)`, `Initialization(_)`, `VersionNotFound(_)`,
`Internal(_)`), payload details collapsed to a message string. -/
inductive Error where
  | Compilation (details : String)
  | NoMatchingContracts
  | CompilerVersionMismatch (details : String)
  | Initialization (details : String)
  | VersionNotFound (details : String)
  | Internal (details : String)
  deriving DecidableEq, Repr

/-- Modelled from the spec: `crate::verifier::Success` (§3,
VerificationOutcome) — matched contract name, the effective settings used
(including which metadata variant matched), ABI and compiled bytecode. -/
structure Success where
  contract_name : String
  settings : Settings
  abi : String
  bytecode : List Nat
  deriving DecidableEq, Repr

/-- The per-attempt settings write of the inner loop:
`compiler_input.settings.metadata = metadata`. -/
def setMetadata (input : CompilerInput) (metadata : Option SettingsMetadata) :
    CompilerInput :=
  { input with settings := { input.settings with metadata := metadata } }

/-- Hex decoding of `blockscout_display_bytes::Bytes::from_str` (an optional
`0x` prefix followed by an even number of hex digits). -/
def hexDigitVal (c : Char) : Option Nat :=
  let n := c.toNat
  if 48 ≤ n && n ≤ 57 then some (n - 48)
  else if 97 ≤ n && n ≤ 102 then some (n - 87)
  else if 65 ≤ n && n ≤ 70 then some (n - 55)
  else Option.none

/-- Decode a list of hex digits, two per byte. -/
def hexPairs : List Char → Option (List Nat)
  | [] => some []
  | [_] => Option.none
  | c1 :: c2 :: rest =>
    match hexDigitVal c1, hexDigitVal c2, hexPairs rest with
    | some hi, some lo, some bytes => some ((hi * 16 + lo) :: bytes)
    | _, _, _ => Option.none

/-- `DisplayBytes::from_str`: strip an optional `0x` prefix and hex-decode. -/
def DisplayBytes.from_str (s : String) : Option (List Nat) :=
  let stripped : List Char :=
    match s.data with
    | '0' :: 'x' :: rest => rest
    | other => other
  hexPairs stripped

/-- `get_Code(contract_address)`: invoke the RPC capability
(`rpc.eth_get_code(contract_address, None)`), pass its `result` field through
on success and the error through on failure (logging omitted).  The RPC
endpoint is a parameter here; in the source it is the hardcoded node URL. -/
def get_Code (eth_get_code : String → Except String (Option String))
    (contract_address : String) : Except String (Option String) :=
  match eth_get_code contract_address with
  | Except.ok r => Except.ok r
  | Except.error e => Except.error e

/-- The solidity `Client` as `verify` uses it: `client.compilers()` feeds
`ContractVerifier::new`, which either fails or yields the verify-candidate
capability `verifier.verify` (a function of the compiler input, closed over
the version and both bytecodes); `client.middleware()` is the optional
post-match hook.  The hook receives `&success` and can only perform side
effects, modelled as a state transformer on an abstract hook state `σ`. -/
structure Client (σ : Type) where
  newVerifier : Version → Option (List Nat) → List Nat →
    Except Error (CompilerInput → Except Error Success)
  middleware : Option (Success → σ → σ)

/-- `VerificationRequest` of `solidity/multi_part.rs`. -/
structure VerificationRequest where
  contract_address : String
  creation_bytecode : Option (List Nat)
  compiler_version : Version
  content : MultiFileContent

/-- How the `verify` call ends: a panic (the source's `.expect(...)` calls on
the resolver path abort the request) or a returned `Result<Success, Error>`. -/
inductive VerifyOutcome where
  | panicked (msg : String)
  | returned (r : Except Error Success)

/-- Observable behaviour of one `verify` call: the address handed to the RPC
capability, the compiler inputs the verify-candidate capability was invoked
on (in call order), the hook state after the call, and the outcome. -/
structure VerifyResult (σ : Type) where
  rpcAddress : String
  capabilityCalls : List CompilerInput
  hookState : σ
  outcome : VerifyOutcome

/-- Inner loop of `verify` (`for metadata in settings_metadata(...)`) for one
compiler input: set the metadata variant, invoke the capability; on
`Err(NoMatchingContracts)` continue with the next variant, on anything else
stop with that result.  `none` means every variant yielded
`NoMatchingContracts`, so the outer loop continues.  Also returns the
compiler inputs the capability was called on, in order. -/
def verifyVariantsLoop (verifier : CompilerInput → Except Error Success)
    (compiler_input : CompilerInput) :
    List (Option SettingsMetadata) →
      Option (Except Error Success) × List CompilerInput
  | [] => (Option.none, [])
  | metadata :: rest =>
    let attempt := setMetadata compiler_input metadata
    match verifier attempt with
    | Except.error Error.NoMatchingContracts =>
      let next := verifyVariantsLoop verifier compiler_input rest
      (next.1, attempt :: next.2)
    | result => (some result, [attempt])

/-- Outer loop of `verify` (`for mut compiler_input in compiler_inputs`):
run the inner loop per candidate; a definite inner result ends the search,
inner exhaustion moves to the next candidate; when all candidates are
exhausted the result is `Err(NoMatchingContracts)`. -/
def verifyInputsLoop (verifier : CompilerInput → Except Error Success)
    (metadatas : List (Option SettingsMetadata)) :
    List CompilerInput → Except Error Success × List CompilerInput
  | [] => (Except.error Error.NoMatchingContracts, [])
  | compiler_input :: rest =>
    match verifyVariantsLoop verifier compiler_input metadatas with
    | (some result, calls) => (result, calls)
    | (Option.none, calls) =>
      let next := verifyInputsLoop verifier metadatas rest
      (next.1, calls ++ next.2)

/-- `solidity::multi_part::verify`: fetch the deployed bytecode via
`get_Code` (the source unwraps both the transport result and the optional
code with `.expect`, i.e. panics), hex-decode it (again `.expect`), construct
the verifier (`ContractVerifier::new(...)?`), run the candidate × variant
search, and on success run the middleware hook before returning the success
unchanged. -/
def verify {σ : Type} (client : Client σ)
    (eth_get_code : String → Except String (Option String))
    (hookState0 : σ) (request : VerificationRequest) : VerifyResult σ :=
  let compiler_version := request.compiler_version
  match get_Code eth_get_code request.contract_address with
  | Except.error _ =>
    { rpcAddress := request.contract_address, capabilityCalls := [],
      hookState := hookState0,
      outcome := VerifyOutcome.panicked "invalid address address." }
  | Except.ok Option.none =>
    { rpcAddress := request.contract_address, capabilityCalls := [],
      hookState := hookState0,
      outcome := VerifyOutcome.panicked "no deployed bytecode for this address." }
  | Except.ok (some codeStr) =>
    match DisplayBytes.from_str codeStr with
    | Option.none =>
      { rpcAddress := request.contract_address, capabilityCalls := [],
        hookState := hookState0,
        outcome := VerifyOutcome.panicked "invalide bytecode" }
    | some deployed_bytecode =>
      match client.newVerifier compiler_version request.creation_bytecode
          deployed_bytecode with
      | Except.error e =>
        { rpcAddress := request.contract_address, capabilityCalls := [],
          hookState := hookState0,
          outcome := VerifyOutcome.returned (Except.error e) }
      | Except.ok verifier =>
        let compiler_inputs := request.content.toCompilerInputs
        let run := verifyInputsLoop verifier (settings_metadata compiler_version)
          compiler_inputs
        match run.1 with
        | Except.ok success =>
          { rpcAddress := request.contract_address, capabilityCalls := run.2,
            hookState :=
              match client.middleware with
              | some middleware => middleware success hookState0
              | Option.none => hookState0,
            outcome := VerifyOutcome.returned (Except.ok success) }
        | Except.error e =>
          { rpcAddress := request.contract_address, capabilityCalls := run.2,
            hookState := hookState0,
            outcome := VerifyOutcome.returned (Except.error e) }

/-- The HTTP handlers' response classes for the error path: a JSON response
carrying an error payload (`Ok(Json(VerificationResponse::err(err)))`), a
bad-request error (`error::ErrorBadRequest(err)`), or an internal-server
error (`error::ErrorInternalServerError(err)`). -/
inductive HandlerErrorResponse where
  | okErrJson (err : Error)
  | badRequest (err : Error)
  | internalServerError (err : Error)
  deriving DecidableEq, Repr

/-- The `match err` of `handlers/solidity_multi_part.rs::verify` after a
failed core verification. -/
def multiPartClassifyError (err : Error) : HandlerErrorResponse :=
  match err with
  | Error.Compilation _
  | Error.NoMatchingContracts
  | Error.CompilerVersionMismatch _ => HandlerErrorResponse.okErrJson err
  | Error.Initialization _
  | Error.VersionNotFound _ => HandlerErrorResponse.badRequest err
  | Error.Internal _ => HandlerErrorResponse.internalServerError err

/-- The `match err` of `handlers/solidity_standard_json.rs::verify` after a
failed core verification (textually the same match as the multi-part one). -/
def standardJsonClassifyError (err : Error) : HandlerErrorResponse :=
  match err with
  | Error.Compilation _
  | Error.NoMatchingContracts
  | Error.CompilerVersionMismatch _ => HandlerErrorResponse.okErrJson err
  | Error.Initialization _
  | Error.VersionNotFound _ => HandlerErrorResponse.badRequest err
  | Error.Internal _ => HandlerErrorResponse.internalServerError err

/-- On the success path of `handlers/solidity_multi_part.rs::verify`, the
contract address recorded to the database:
`request.contract_address.to_lowercase()`. -/
def multiPartDbRecordAddress (contract_address : String) : String :=
  strToLower contract_address

instance : DecidableEq (Except Error Success)
  | Except.error e1, Except.error e2 =>
    if h : e1 = e2 then isTrue (by rw [h])
    else isFalse (by intro hc; cases hc; exact h rfl)
  | Except.error _, Except.ok _ => isFalse (by intro hc; cases hc)
  | Except.ok _, Except.error _ => isFalse (by intro hc; cases hc)
  | Except.ok a1, Except.ok a2 =>
    if h : a1 = a2 then isTrue (by rw [h])
    else isFalse (by intro hc; cases hc; exact h rfl)

/-- The flat list of (candidate, variant) attempts in the order the nested
loops of `verify` visit them: for each compiler input in order, each metadata
variant in order, the input with that variant written into its settings. -/
def attempts (metadatas : List (Option SettingsMetadata))
    (inputs : List CompilerInput) : List CompilerInput :=
  inputs.flatMap (fun input => metadatas.map (setMetadata input))

/-- The search over the flattened attempt list: call the capability on each
attempt in order, skipping past `Err(NoMatchingContracts)`, stopping at the
first other result; exhaustion yields `Err(NoMatchingContracts)`.  The nested
loops of `verify` compute exactly this (`verifyInputsLoop_eq_searchFlat`). -/
def searchFlat (f : CompilerInput → Except Error Success) :
    List CompilerInput → Except Error Success × List CompilerInput
  | [] => (Except.error Error.NoMatchingContracts, [])
  | a :: rest =>
    match f a with
    | Except.error Error.NoMatchingContracts =>
      let next := searchFlat f rest
      (next.1, a :: next.2)
    | r => (r, [a])

theorem searchFlat_all_noMatch (f : CompilerInput → Except Error Success)
    (l : List CompilerInput)
    (h : ∀ a ∈ l, f a = Except.error Error.NoMatchingContracts) :
    searchFlat f l = (Except.error Error.NoMatchingContracts, l) := by
  induction l with
  | nil => rfl
  | cons a t ih =>
    have ha := h a (List.mem_cons_self a t)
    have ht := ih (fun b hb => h b (List.mem_cons_of_mem a hb))
    simp [searchFlat, ha, ht]

theorem searchFlat_stops_at_first (f : CompilerInput → Except Error Success)
    (pre : List CompilerInput) (a : CompilerInput) (post : List CompilerInput)
    (r : Except Error Success)
    (hpre : ∀ b ∈ pre, f b = Except.error Error.NoMatchingContracts)
    (ha : f a = r) (hr : r ≠ Except.error Error.NoMatchingContracts) :
    searchFlat f (pre ++ a :: post) = (r, pre ++ [a]) := by
  induction pre with
  | nil =>
    simp only [List.nil_append]
    rw [searchFlat, ha]
    cases r with
    | error e =>
      cases e with
      | NoMatchingContracts => exact absurd rfl hr
      | Compilation d => rfl
      | CompilerVersionMismatch d => rfl
      | Initialization d => rfl
      | VersionNotFound d => rfl
      | Internal d => rfl
    | ok s => rfl
  | cons b t ih =>
    have hb := hpre b (List.mem_cons_self b t)
    have ht := ih (fun c hc => hpre c (List.mem_cons_of_mem b hc))
    simp [searchFlat, hb, ht]

theorem searchFlat_ok_mem (f : CompilerInput → Except Error Success)
    (l : List CompilerInput) (s : Success) (calls : List CompilerInput)
    (h : searchFlat f l = (Except.ok s, calls)) :
    ∃ a, a ∈ calls ∧ f a = Except.ok s := by
  induction l generalizing calls with
  | nil => simp [searchFlat] at h
  | cons a t ih =>
    rw [searchFlat] at h
    cases hfa : f a with
    | error e =>
      cases e with
      | NoMatchingContracts =>
        rw [hfa] at h
        simp only [Prod.mk.injEq] at h
        obtain ⟨h1, h2⟩ := h
        obtain ⟨b, hb, hfb⟩ := ih (searchFlat f t).2 (by rw [← h1])
        exact ⟨b, by rw [← h2]; exact List.mem_cons_of_mem a hb, hfb⟩
      | Compilation d => rw [hfa] at h; simp at h
      | CompilerVersionMismatch d => rw [hfa] at h; simp at h
      | Initialization d => rw [hfa] at h; simp at h
      | VersionNotFound d => rw [hfa] at h; simp at h
      | Internal d => rw [hfa] at h; simp at h
    | ok s2 =>
      rw [hfa] at h
      simp only [Prod.mk.injEq, Except.ok.injEq] at h
      obtain ⟨h1, h2⟩ := h
      exact ⟨a, by rw [← h2]; exact List.mem_cons_self a [], by rw [hfa, h1]⟩

theorem verifyVariantsLoop_some_searchFlat
    (f : CompilerInput → Except Error Success) (inp : CompilerInput)
    (ms : List (Option SettingsMetadata)) (tail : List CompilerInput)
    (r : Except Error Success) (calls : List CompilerInput)
    (h : verifyVariantsLoop f inp ms = (some r, calls)) :
    searchFlat f (ms.map (setMetadata inp) ++ tail) = (r, calls) := by
  induction ms generalizing calls with
  | nil => simp [verifyVariantsLoop] at h
  | cons m t ih =>
    rw [verifyVariantsLoop] at h
    cases hf : f (setMetadata inp m) with
    | error e =>
      cases e with
      | NoMatchingContracts =>
        rw [hf] at h
        simp only [Prod.mk.injEq] at h
        obtain ⟨h1, h2⟩ := h
        rcases hvv : verifyVariantsLoop f inp t with ⟨o, calls2⟩
        rw [hvv] at h1 h2
        simp only at h1 h2
        cases o with
        | none => simp at h1
        | some r2 =>
          simp only [Option.some.injEq] at h1
          have := ih calls2 (by rw [hvv, h1])
          simp only [List.map_cons, List.cons_append]
          rw [searchFlat, hf, this, ← h2]
      | Compilation d =>
        rw [hf] at h
        simp only [Prod.mk.injEq, Option.some.injEq] at h
        simp only [List.map_cons, List.cons_append]
        rw [searchFlat, hf, ← h.1, ← h.2]
      | CompilerVersionMismatch d =>
        rw [hf] at h
        simp only [Prod.mk.injEq, Option.some.injEq] at h
        simp only [List.map_cons, List.cons_append]
        rw [searchFlat, hf, ← h.1, ← h.2]
      | Initialization d =>
        rw [hf] at h
        simp only [Prod.mk.injEq, Option.some.injEq] at h
        simp only [List.map_cons, List.cons_append]
        rw [searchFlat, hf, ← h.1, ← h.2]
      | VersionNotFound d =>
        rw [hf] at h
        simp only [Prod.mk.injEq, Option.some.injEq] at h
        simp only [List.map_cons, List.cons_append]
        rw [searchFlat, hf, ← h.1, ← h.2]
      | Internal d =>
        rw [hf] at h
        simp only [Prod.mk.injEq, Option.some.injEq] at h
        simp only [List.map_cons, List.cons_append]
        rw [searchFlat, hf, ← h.1, ← h.2]
    | ok s =>
      rw [hf] at h
      simp only [Prod.mk.injEq, Option.some.injEq] at h
      simp only [List.map_cons, List.cons_append]
      rw [searchFlat, hf, ← h.1, ← h.2]

theorem verifyVariantsLoop_none_searchFlat
    (f : CompilerInput → Except Error Success) (inp : CompilerInput)
    (ms : List (Option SettingsMetadata)) (tail : List CompilerInput)
    (calls : List CompilerInput)
    (h : verifyVariantsLoop f inp ms = (Option.none, calls)) :
    searchFlat f (ms.map (setMetadata inp) ++ tail) =
      ((searchFlat f tail).1, calls ++ (searchFlat f tail).2) := by
  induction ms generalizing calls with
  | nil =>
    simp only [verifyVariantsLoop, Prod.mk.injEq] at h
    rw [← h.2]
    simp
  | cons m t ih =>
    rw [verifyVariantsLoop] at h
    cases hf : f (setMetadata inp m) with
    | error e =>
      cases e with
      | NoMatchingContracts =>
        rw [hf] at h
        simp only [Prod.mk.injEq] at h
        obtain ⟨h1, h2⟩ := h
        rcases hvv : verifyVariantsLoop f inp t with ⟨o, calls2⟩
        rw [hvv] at h1 h2
        simp only at h1 h2
        cases o with
        | some r2 => simp at h1
        | none =>
          have := ih calls2 hvv
          simp only [List.map_cons, List.cons_append]
          rw [searchFlat, hf, this, ← h2]
          simp
      | Compilation d => rw [hf] at h; simp at h
      | CompilerVersionMismatch d => rw [hf] at h; simp at h
      | Initialization d => rw [hf] at h; simp at h
      | VersionNotFound d => rw [hf] at h; simp at h
      | Internal d => rw [hf] at h; simp at h
    | ok s => rw [hf] at h; simp at h

theorem verifyInputsLoop_eq_searchFlat
    (f : CompilerInput → Except Error Success)
    (ms : List (Option SettingsMetadata)) (inputs : List CompilerInput) :
    verifyInputsLoop f ms inputs = searchFlat f (attempts ms inputs) := by
  induction inputs with
  | nil => rfl
  | cons inp rest ih =>
    have hatt : attempts ms (inp :: rest)
        = ms.map (setMetadata inp) ++ attempts ms rest := by
      simp [attempts]
    rw [hatt, verifyInputsLoop]
    rcases hvv : verifyVariantsLoop f inp ms with ⟨o, calls⟩
    cases o with
    | some r =>
      rw [verifyVariantsLoop_some_searchFlat f inp ms (attempts ms rest) r calls hvv]
    | none =>
      rw [verifyVariantsLoop_none_searchFlat f inp ms (attempts ms rest) calls hvv]
      simp only [← ih]

theorem attempts_length (ms : List (Option SettingsMetadata))
    (inputs : List CompilerInput) :
    (attempts ms inputs).length = inputs.length * ms.length := by
  induction inputs with
  | nil => simp [attempts]
  | cons inp rest ih =>
    have h : attempts ms (inp :: rest)
        = ms.map (setMetadata inp) ++ attempts ms rest := by
      simp [attempts]
    rw [h, List.length_append, List.length_map, ih, List.length_cons,
      Nat.succ_mul, Nat.add_comm]

theorem setMetadata_settings (input : CompilerInput)
    (metadata : Option SettingsMetadata) :
    (setMetadata input metadata).settings.metadata = metadata := rfl

/-- Strict semantic-version ordering on version triples (spec §4.5):
lexicographic on (major, minor, patch). -/
def Version.semverLt (v w : Version) : Prop :=
  v.major < w.major ∨
    (v.major = w.major ∧
      (v.minor < w.minor ∨ (v.minor = w.minor ∧ v.patch < w.patch)))

instance (v w : Version) : Decidable (v.semverLt w) := by
  unfold Version.semverLt
  infer_instance

theorem ltV060_iff_semverLt (v : Version) :
    v.ltV060 = true ↔ v.semverLt ⟨0, 6, 0⟩ := by
  simp [Version.ltV060, Version.semverLt]

/-- On the happy resolver path (RPC returns code, it hex-decodes, the
verifier constructs), `verify` behaves as the nested loop: the capability
calls are the loop's calls, the outcome is the loop's result returned, and
the RPC capability saw the request's address. -/
theorem verify_ok_path {σ : Type} (client : Client σ)
    (eth_get_code : String → Except String (Option String)) (hookState0 : σ)
    (request : VerificationRequest) (codeStr : String) (bytes : List Nat)
    (verifier : CompilerInput → Except Error Success)
    (h1 : eth_get_code request.contract_address = Except.ok (some codeStr))
    (h2 : DisplayBytes.from_str codeStr = some bytes)
    (h3 : client.newVerifier request.compiler_version request.creation_bytecode
      bytes = Except.ok verifier) :
    (verify client eth_get_code hookState0 request).capabilityCalls =
      (verifyInputsLoop verifier (settings_metadata request.compiler_version)
        request.content.toCompilerInputs).2 ∧
    (verify client eth_get_code hookState0 request).outcome =
      VerifyOutcome.returned
        (verifyInputsLoop verifier (settings_metadata request.compiler_version)
          request.content.toCompilerInputs).1 ∧
    (verify client eth_get_code hookState0 request).rpcAddress =
      request.contract_address := by
  have hg : get_Code eth_get_code request.contract_address
      = Except.ok (some codeStr) := by
    unfold get_Code
    rw [h1]
  refine ⟨?_, ?_, ?_⟩ <;>
  · simp only [verify, hg, h2, h3]
    rcases hr : (verifyInputsLoop verifier
        (settings_metadata request.compiler_version)
        request.content.toCompilerInputs).1 with e | s <;>
      simp [hr]

/-- On a successful search, the hook state after `verify` is the middleware
applied to the success (or untouched when no middleware is registered). -/
theorem verify_hookState_on_success {σ : Type} (client : Client σ)
    (eth_get_code : String → Except String (Option String)) (hookState0 : σ)
    (request : VerificationRequest) (codeStr : String) (bytes : List Nat)
    (verifier : CompilerInput → Except Error Success) (s : Success)
    (h1 : eth_get_code request.contract_address = Except.ok (some codeStr))
    (h2 : DisplayBytes.from_str codeStr = some bytes)
    (h3 : client.newVerifier request.compiler_version request.creation_bytecode
      bytes = Except.ok verifier)
    (hs : (verifyInputsLoop verifier (settings_metadata request.compiler_version)
      request.content.toCompilerInputs).1 = Except.ok s) :
    (verify client eth_get_code hookState0 request).hookState =
      match client.middleware with
      | some middleware => middleware s hookState0
      | Option.none => hookState0 := by
  have hg : get_Code eth_get_code request.contract_address
      = Except.ok (some codeStr) := by
    unfold get_Code
    rw [h1]
  simp only [verify, hg, h2, h3, hs]

/-! Concrete fixtures used by the witnesses below. -/

def sampleContent : MultiFileContent :=
  { sources := [("a.sol", "pragma")]
    evm_version := Option.none
    optimization_runs := Option.none
    contract_libraries := Option.none }

def sampleInput : CompilerInput :=
  { language := Language.Solidity
    sources := [("a.sol", { content := "pragma" })]
    settings :=
      { optimizer := { enabled := some false, runs := Option.none }
        evm_version := Option.none
        libraries := []
        metadata := Option.none } }

def sampleSuccess : Success :=
  { contract_name := "A", settings := Settings.default, abi := "[]",
    bytecode := [96, 1] }

def sampleRequest : VerificationRequest :=
  { contract_address := "0xabc"
    creation_bytecode := Option.none
    compiler_version := { major := 0, minor := 8, patch := 2 }
    content := sampleContent }

def sampleEth : String → Except String (Option String) :=
  fun _ => Except.ok (some "0x6001")

/-- Synthetic capability: `NoMatchingContracts` except on the third metadata
variant (`Bzzr1`), where it matches. -/
def sampleCapMatchThird : CompilerInput → Except Error Success :=
  fun input =>
    if input.settings.metadata = some { bytecodeHash := BytecodeHash.Bzzr1 }
    then Except.ok sampleSuccess
    else Except.error Error.NoMatchingContracts

def sampleClientMatchThird : Client Nat :=
  { newVerifier := fun _ _ _ => Except.ok sampleCapMatchThird,
    middleware := Option.none }

/-- Synthetic capability: hard `Compilation` error on the first metadata
variant (`Ipfs`), would match on any later one. -/
def sampleCapHardError : CompilerInput → Except Error Success :=
  fun input =>
    if input.settings.metadata = some { bytecodeHash := BytecodeHash.Ipfs }
    then Except.error (Error.Compilation "parse error")
    else Except.ok sampleSuccess

def sampleClientHardError : Client Nat :=
  { newVerifier := fun _ _ _ => Except.ok sampleCapHardError,
    middleware := Option.none }

/-- Synthetic capability: `NoMatchingContracts` on every attempt. -/
def sampleCapAllNoMatch : CompilerInput → Except Error Success :=
  fun _ => Except.error Error.NoMatchingContracts

def sampleClientAllNoMatch : Client Nat :=
  { newVerifier := fun _ _ _ => Except.ok sampleCapAllNoMatch,
    middleware := Option.none }

/-! The claims. -/

/-- C1: if the verify-candidate capability answers `NoMatchingContracts` for
every (candidate, variant) attempt ordered before some pair and `Match`
(`Ok`) on that pair, then `verify` calls the capability exactly once per
attempt up to and including the matching one (no calls afterwards), returns
the `Success` that matching call produced, and the matching call's compiler
input carries that pair's metadata variant in its settings. -/
theorem verify_short_circuits_on_match {σ : Type} (client : Client σ)
    (eth_get_code : String → Except String (Option String)) (hookState0 : σ)
    (request : VerificationRequest) (codeStr : String) (bytes : List Nat)
    (verifier : CompilerInput → Except Error Success)
    (pre post : List CompilerInput) (input : CompilerInput)
    (metadata : Option SettingsMetadata) (s : Success)
    (h1 : eth_get_code request.contract_address = Except.ok (some codeStr))
    (h2 : DisplayBytes.from_str codeStr = some bytes)
    (h3 : client.newVerifier request.compiler_version request.creation_bytecode
      bytes = Except.ok verifier)
    (hsplit : attempts (settings_metadata request.compiler_version)
      request.content.toCompilerInputs = pre ++ setMetadata input metadata :: post)
    (hpre : ∀ b ∈ pre, verifier b = Except.error Error.NoMatchingContracts)
    (hmatch : verifier (setMetadata input metadata) = Except.ok s) :
    (verify client eth_get_code hookState0 request).capabilityCalls =
      pre ++ [setMetadata input metadata] ∧
    (verify client eth_get_code hookState0 request).outcome =
      VerifyOutcome.returned (Except.ok s) ∧
    (setMetadata input metadata).settings.metadata = metadata := by
  obtain ⟨hc, ho, -⟩ := verify_ok_path client eth_get_code hookState0 request
    codeStr bytes verifier h1 h2 h3
  have hsf : searchFlat verifier (attempts
      (settings_metadata request.compiler_version)
      request.content.toCompilerInputs) =
      (Except.ok s, pre ++ [setMetadata input metadata]) := by
    rw [hsplit]
    exact searchFlat_stops_at_first verifier pre _ post _ hpre hmatch
      (by intro hcontra; cases hcontra)
  rw [verifyInputsLoop_eq_searchFlat, hsf] at hc ho
  exact ⟨hc, ho, rfl⟩

theorem verify_short_circuits_on_match_witness :
    (verify sampleClientMatchThird sampleEth 0 sampleRequest).capabilityCalls =
      [setMetadata sampleInput (some { bytecodeHash := BytecodeHash.Ipfs }),
       setMetadata sampleInput (some { bytecodeHash := BytecodeHash.None })] ++
      [setMetadata sampleInput (some { bytecodeHash := BytecodeHash.Bzzr1 })] ∧
    (verify sampleClientMatchThird sampleEth 0 sampleRequest).outcome =
      VerifyOutcome.returned (Except.ok sampleSuccess) ∧
    (setMetadata sampleInput
      (some { bytecodeHash := BytecodeHash.Bzzr1 })).settings.metadata =
      some { bytecodeHash := BytecodeHash.Bzzr1 } :=
  verify_short_circuits_on_match sampleClientMatchThird sampleEth 0
    sampleRequest "0x6001" [96, 1] sampleCapMatchThird
    [setMetadata sampleInput (some { bytecodeHash := BytecodeHash.Ipfs }),
     setMetadata sampleInput (some { bytecodeHash := BytecodeHash.None })] []
    sampleInput (some { bytecodeHash := BytecodeHash.Bzzr1 }) sampleSuccess
    rfl (by decide) rfl (by decide) (by decide) (by decide)

/-- C2: if the capability answers `NoMatchingContracts` on every attempt
before some pair and a non-`NoMatchingContracts` error on that pair, `verify`
stops immediately — the calls are exactly the attempts up to and including
the failing one — and returns that error value unchanged. -/
theorem verify_stops_on_hard_error {σ : Type} (client : Client σ)
    (eth_get_code : String → Except String (Option String)) (hookState0 : σ)
    (request : VerificationRequest) (codeStr : String) (bytes : List Nat)
    (verifier : CompilerInput → Except Error Success)
    (pre post : List CompilerInput) (input : CompilerInput)
    (metadata : Option SettingsMetadata) (e : Error)
    (h1 : eth_get_code request.contract_address = Except.ok (some codeStr))
    (h2 : DisplayBytes.from_str codeStr = some bytes)
    (h3 : client.newVerifier request.compiler_version request.creation_bytecode
      bytes = Except.ok verifier)
    (hsplit : attempts (settings_metadata request.compiler_version)
      request.content.toCompilerInputs = pre ++ setMetadata input metadata :: post)
    (hpre : ∀ b ∈ pre, verifier b = Except.error Error.NoMatchingContracts)
    (herr : verifier (setMetadata input metadata) = Except.error e)
    (hne : e ≠ Error.NoMatchingContracts) :
    (verify client eth_get_code hookState0 request).capabilityCalls =
      pre ++ [setMetadata input metadata] ∧
    (verify client eth_get_code hookState0 request).outcome =
      VerifyOutcome.returned (Except.error e) := by
  obtain ⟨hc, ho, -⟩ := verify_ok_path client eth_get_code hookState0 request
    codeStr bytes verifier h1 h2 h3
  have hsf : searchFlat verifier (attempts
      (settings_metadata request.compiler_version)
      request.content.toCompilerInputs) =
      (Except.error e, pre ++ [setMetadata input metadata]) := by
    rw [hsplit]
    exact searchFlat_stops_at_first verifier pre _ post _ hpre herr
      (by intro hcontra; injection hcontra with hc2; exact hne hc2)
  rw [verifyInputsLoop_eq_searchFlat, hsf] at hc ho
  exact ⟨hc, ho⟩

theorem verify_stops_on_hard_error_witness :
    (verify sampleClientHardError sampleEth 0 sampleRequest).capabilityCalls =
      [] ++ [setMetadata sampleInput (some { bytecodeHash := BytecodeHash.Ipfs })] ∧
    (verify sampleClientHardError sampleEth 0 sampleRequest).outcome =
      VerifyOutcome.returned (Except.error (Error.Compilation "parse error")) :=
  verify_stops_on_hard_error sampleClientHardError sampleEth 0 sampleRequest
    "0x6001" [96, 1] sampleCapHardError []
    [setMetadata sampleInput (some { bytecodeHash := BytecodeHash.None }),
     setMetadata sampleInput (some { bytecodeHash := BytecodeHash.Bzzr1 })]
    sampleInput (some { bytecodeHash := BytecodeHash.Ipfs })
    (Error.Compilation "parse error")
    rfl (by decide) rfl (by decide) (by decide) (by decide)
    (by decide)

/-- C3: if the capability answers `NoMatchingContracts` on every
(candidate, variant) attempt, `verify` returns `NoMatchingContracts` and the
capability was invoked exactly (number of candidates) × (number of metadata
variants) times, once per attempt. -/
theorem verify_exhaustion {σ : Type} (client : Client σ)
    (eth_get_code : String → Except String (Option String)) (hookState0 : σ)
    (request : VerificationRequest) (codeStr : String) (bytes : List Nat)
    (verifier : CompilerInput → Except Error Success)
    (h1 : eth_get_code request.contract_address = Except.ok (some codeStr))
    (h2 : DisplayBytes.from_str codeStr = some bytes)
    (h3 : client.newVerifier request.compiler_version request.creation_bytecode
      bytes = Except.ok verifier)
    (hall : ∀ a ∈ attempts (settings_metadata request.compiler_version)
      request.content.toCompilerInputs,
      verifier a = Except.error Error.NoMatchingContracts) :
    (verify client eth_get_code hookState0 request).outcome =
      VerifyOutcome.returned (Except.error Error.NoMatchingContracts) ∧
    (verify client eth_get_code hookState0 request).capabilityCalls =
      attempts (settings_metadata request.compiler_version)
        request.content.toCompilerInputs ∧
    (verify client eth_get_code hookState0 request).capabilityCalls.length =
      request.content.toCompilerInputs.length *
        (settings_metadata request.compiler_version).length := by
  obtain ⟨hc, ho, -⟩ := verify_ok_path client eth_get_code hookState0 request
    codeStr bytes verifier h1 h2 h3
  have hsf := searchFlat_all_noMatch verifier
    (attempts (settings_metadata request.compiler_version)
      request.content.toCompilerInputs) hall
  rw [verifyInputsLoop_eq_searchFlat, hsf] at hc ho
  refine ⟨ho, hc, ?_⟩
  rw [hc]
  exact attempts_length _ _

theorem verify_exhaustion_witness :
    (verify sampleClientAllNoMatch sampleEth 0 sampleRequest).outcome =
      VerifyOutcome.returned (Except.error Error.NoMatchingContracts) ∧
    (verify sampleClientAllNoMatch sampleEth 0 sampleRequest).capabilityCalls =
      attempts (settings_metadata sampleRequest.compiler_version)
        sampleRequest.content.toCompilerInputs ∧
    (verify sampleClientAllNoMatch sampleEth 0 sampleRequest).capabilityCalls.length =
      sampleRequest.content.toCompilerInputs.length *
        (settings_metadata sampleRequest.compiler_version).length :=
  verify_exhaustion sampleClientAllNoMatch sampleEth 0 sampleRequest
    "0x6001" [96, 1] sampleCapAllNoMatch
    rfl (by decide) rfl (by decide)

/-- C4: for every compiler version strictly below 0.6.0 the metadata-variant
generator returns exactly the one no-metadata-hash-selection variant; at or
above 0.6.0 it returns the full fixed ordered algorithm list
`[Ipfs, None, Bzzr1]` with no duplicates. -/
theorem settings_metadata_variants (v : Version) :
    (v.semverLt { major := 0, minor := 6, patch := 0 } →
      settings_metadata v = [Option.none]) ∧
    (¬ v.semverLt { major := 0, minor := 6, patch := 0 } →
      settings_metadata v =
        [some { bytecodeHash := BytecodeHash.Ipfs },
         some { bytecodeHash := BytecodeHash.None },
         some { bytecodeHash := BytecodeHash.Bzzr1 }] ∧
      (settings_metadata v).Nodup) := by
  constructor
  · intro h
    have hb : v.ltV060 = true := (ltV060_iff_semverLt v).mpr h
    simp [settings_metadata, hb]
  · intro h
    have hb : v.ltV060 = false := by
      cases hlt : v.ltV060
      · rfl
      · exact absurd ((ltV060_iff_semverLt v).mp hlt) h
    have he : settings_metadata v =
        [some { bytecodeHash := BytecodeHash.Ipfs },
         some { bytecodeHash := BytecodeHash.None },
         some { bytecodeHash := BytecodeHash.Bzzr1 }] := by
      simp [settings_metadata, hb]
    refine ⟨he, ?_⟩
    rw [he]
    decide

theorem settings_metadata_variants_witness :
    settings_metadata { major := 0, minor := 5, patch := 17 } = [Option.none] ∧
    settings_metadata { major := 0, minor := 8, patch := 2 } =
      [some { bytecodeHash := BytecodeHash.Ipfs },
       some { bytecodeHash := BytecodeHash.None },
       some { bytecodeHash := BytecodeHash.Bzzr1 }] ∧
    (settings_metadata { major := 0, minor := 8, patch := 2 }).Nodup :=
  ⟨(settings_metadata_variants { major := 0, minor := 5, patch := 17 }).1
      (by decide),
   ((settings_metadata_variants { major := 0, minor := 8, patch := 2 }).2
      (by decide)).1,
   ((settings_metadata_variants { major := 0, minor := 8, patch := 2 }).2
      (by decide)).2⟩

/-- C5: every compiler-input candidate built from a `MultiFileContent` whose
`contract_libraries` is present has a per-file library table mapping every
source file path of the request to the complete supplied library map; when
`contract_libraries` is absent the library table is empty. -/
theorem candidate_library_table (content : MultiFileContent)
    (input : CompilerInput) (hin : input ∈ content.toCompilerInputs) :
    (∀ libs, content.contract_libraries = some libs →
      input.settings.libraries =
        content.sources.map (fun kv => (kv.1, libs)) ∧
      ∀ kv ∈ content.sources, (kv.1, libs) ∈ input.settings.libraries) ∧
    (content.contract_libraries = Option.none →
      input.settings.libraries = []) := by
  simp only [MultiFileContent.toCompilerInputs] at hin
  rcases List.mem_map.1 hin with ⟨b, hb, rfl⟩
  constructor
  · intro libs hcl
    constructor
    · simp [CompilerInput.withSettings, hcl]
    · intro kv hkv
      simp only [CompilerInput.withSettings, hcl]
      exact List.mem_map_of_mem _ hkv
  · intro hcl
    simp [CompilerInput.withSettings, hcl, Settings.default]

def sampleContentLibs : MultiFileContent :=
  { sources := [("source.sol", "pragma")]
    evm_version := Option.none
    optimization_runs := Option.none
    contract_libraries := some [("Lib", "0xAAAA")] }

def sampleInputLibs : CompilerInput :=
  { language := Language.Solidity
    sources := [("source.sol", { content := "pragma" })]
    settings :=
      { optimizer := { enabled := some false, runs := Option.none }
        evm_version := Option.none
        libraries := [("source.sol", [("Lib", "0xAAAA")])]
        metadata := Option.none } }

theorem candidate_library_table_witness :
    sampleInputLibs ∈ sampleContentLibs.toCompilerInputs ∧
    sampleInputLibs.settings.libraries =
      sampleContentLibs.sources.map (fun kv => (kv.1, [("Lib", "0xAAAA")])) ∧
    ("source.sol", [("Lib", "0xAAAA")]) ∈ sampleInputLibs.settings.libraries :=
  have hin : sampleInputLibs ∈ sampleContentLibs.toCompilerInputs := by decide
  ⟨hin,
   ((candidate_library_table sampleContentLibs sampleInputLibs hin).1
      [("Lib", "0xAAAA")] rfl).1,
   ((candidate_library_table sampleContentLibs sampleInputLibs hin).1
      [("Lib", "0xAAAA")] rfl).2 ("source.sol", "pragma") (by decide)⟩

/-- C10: every candidate built from a `MultiFileContent` has
`optimizer.enabled = Some(optimization_runs.is_some())` (explicitly false
when the count is absent) and `optimizer.runs` equal to the supplied count;
consequently the optimizer cannot be enabled without a fixed run count. -/
theorem optimizer_settings_from_runs (content : MultiFileContent)
    (input : CompilerInput) (hin : input ∈ content.toCompilerInputs) :
    input.settings.optimizer.enabled = some content.optimization_runs.isSome ∧
    input.settings.optimizer.runs = content.optimization_runs ∧
    (input.settings.optimizer.enabled = some true →
      input.settings.optimizer.runs.isSome = true) := by
  simp only [MultiFileContent.toCompilerInputs] at hin
  rcases List.mem_map.1 hin with ⟨b, hb, rfl⟩
  cases hcl : content.contract_libraries with
  | none => refine ⟨?_, ?_, ?_⟩ <;> simp [CompilerInput.withSettings, hcl]
  | some libs => refine ⟨?_, ?_, ?_⟩ <;> simp [CompilerInput.withSettings, hcl]

def sampleContentRuns : MultiFileContent :=
  { sources := [("a.sol", "pragma")]
    evm_version := Option.none
    optimization_runs := some 200
    contract_libraries := Option.none }

def sampleInputRuns : CompilerInput :=
  { language := Language.Solidity
    sources := [("a.sol", { content := "pragma" })]
    settings :=
      { optimizer := { enabled := some true, runs := some 200 }
        evm_version := Option.none
        libraries := []
        metadata := Option.none } }

theorem optimizer_settings_from_runs_witness :
    sampleInputRuns.settings.optimizer.enabled = some true ∧
    sampleInputRuns.settings.optimizer.runs = some 200 ∧
    sampleInputRuns.settings.optimizer.runs.isSome = true :=
  have h := optimizer_settings_from_runs sampleContentRuns sampleInputRuns
    (by decide)
  ⟨h.1, h.2.1, h.2.2 h.1⟩

def sampleClientUnused : Client Nat :=
  { newVerifier := fun _ _ _ => Except.error (Error.Internal "unused"),
    middleware := Option.none }

/-- C6 (documents the code's actual behaviour, contradicting the claim): when
the address-code capability reports no deployed bytecode (`Ok(None)`),
`verify` panics with the `.expect` message instead of returning a
`NoDeployedCode` error value, and when the capability fails at the transport
level `verify` panics with the other `.expect` message instead of returning a
`ResolverUnavailable`-class error. -/
theorem verify_panics_on_missing_code :
    (verify sampleClientUnused (fun _ => Except.ok Option.none) 0
      sampleRequest).outcome =
      VerifyOutcome.panicked "no deployed bytecode for this address." ∧
    (verify sampleClientUnused (fun _ => Except.error "transport failure") 0
      sampleRequest).outcome =
      VerifyOutcome.panicked "invalid address address." :=
  ⟨rfl, rfl⟩

/-- C7: on the success path the middleware hook is invoked with the `Success`
value (the hook state becomes `hook s state0`), `verify` returns exactly the
`Success` the capability produced on one of its calls, and neither the
outcome nor the call sequence depends on what the hook does. -/
theorem middleware_frame_on_success {σ : Type}
    (nv : Version → Option (List Nat) → List Nat →
      Except Error (CompilerInput → Except Error Success))
    (hook : Success → σ → σ)
    (eth_get_code : String → Except String (Option String)) (hookState0 : σ)
    (request : VerificationRequest) (codeStr : String) (bytes : List Nat)
    (verifier : CompilerInput → Except Error Success) (s : Success)
    (h1 : eth_get_code request.contract_address = Except.ok (some codeStr))
    (h2 : DisplayBytes.from_str codeStr = some bytes)
    (h3 : nv request.compiler_version request.creation_bytecode bytes =
      Except.ok verifier)
    (hs : (verifyInputsLoop verifier (settings_metadata request.compiler_version)
      request.content.toCompilerInputs).1 = Except.ok s) :
    (verify { newVerifier := nv, middleware := some hook } eth_get_code
      hookState0 request).outcome = VerifyOutcome.returned (Except.ok s) ∧
    (verify { newVerifier := nv, middleware := some hook } eth_get_code
      hookState0 request).hookState = hook s hookState0 ∧
    (∃ a, a ∈ (verify { newVerifier := nv, middleware := some hook }
      eth_get_code hookState0 request).capabilityCalls ∧
      verifier a = Except.ok s) ∧
    (∀ hook2 : Success → σ → σ,
      (verify { newVerifier := nv, middleware := some hook2 } eth_get_code
        hookState0 request).outcome =
        (verify { newVerifier := nv, middleware := some hook } eth_get_code
          hookState0 request).outcome ∧
      (verify { newVerifier := nv, middleware := some hook2 } eth_get_code
        hookState0 request).capabilityCalls =
        (verify { newVerifier := nv, middleware := some hook } eth_get_code
          hookState0 request).capabilityCalls) := by
  obtain ⟨hc, ho, -⟩ := verify_ok_path
    { newVerifier := nv, middleware := some hook } eth_get_code hookState0
    request codeStr bytes verifier h1 h2 h3
  have hhook := verify_hookState_on_success
    { newVerifier := nv, middleware := some hook } eth_get_code hookState0
    request codeStr bytes verifier s h1 h2 h3 hs
  refine ⟨?_, ?_, ?_, ?_⟩
  · rw [ho, hs]
  · rw [hhook]
  · have hpair : searchFlat verifier (attempts
        (settings_metadata request.compiler_version)
        request.content.toCompilerInputs) =
        (Except.ok s, (verify { newVerifier := nv, middleware := some hook }
          eth_get_code hookState0 request).capabilityCalls) := by
      rw [hc, ← verifyInputsLoop_eq_searchFlat]
      exact Prod.ext_iff.mpr ⟨hs, rfl⟩
    exact searchFlat_ok_mem verifier _ s _ hpair
  · intro hook2
    obtain ⟨hc2, ho2, -⟩ := verify_ok_path
      { newVerifier := nv, middleware := some hook2 } eth_get_code hookState0
      request codeStr bytes verifier h1 h2 h3
    exact ⟨by rw [ho2, ho], by rw [hc2, hc]⟩

def sampleHook : Success → Nat → Nat := fun _ n => n + 1

def sampleNewVerifierMatchThird :
    Version → Option (List Nat) → List Nat →
      Except Error (CompilerInput → Except Error Success) :=
  fun _ _ _ => Except.ok sampleCapMatchThird

theorem middleware_frame_on_success_witness :
    (verify { newVerifier := sampleNewVerifierMatchThird
              middleware := some sampleHook } sampleEth 0 sampleRequest).outcome =
      VerifyOutcome.returned (Except.ok sampleSuccess) ∧
    (verify { newVerifier := sampleNewVerifierMatchThird
              middleware := some sampleHook } sampleEth 0 sampleRequest).hookState =
      sampleHook sampleSuccess 0 :=
  have h := middleware_frame_on_success sampleNewVerifierMatchThird
    sampleHook sampleEth 0
    sampleRequest "0x6001" [96, 1] sampleCapMatchThird sampleSuccess
    rfl (by decide) rfl (by decide)
  ⟨h.1, h.2.1⟩

/-- The caller-visible three-class mapping exactly as the claim states it:
`Compilation`, `NoMatchingContracts` and `CompilerVersionMismatch` are
successful HTTP responses carrying an error payload; `Initialization` and
`VersionNotFound` are bad-request errors; `Internal` is an internal-server
error. -/
def claimedErrorClass (err : Error) : HandlerErrorResponse :=
  match err with
  | Error.Compilation d => HandlerErrorResponse.okErrJson (Error.Compilation d)
  | Error.NoMatchingContracts =>
    HandlerErrorResponse.okErrJson Error.NoMatchingContracts
  | Error.CompilerVersionMismatch d =>
    HandlerErrorResponse.okErrJson (Error.CompilerVersionMismatch d)
  | Error.Initialization d =>
    HandlerErrorResponse.badRequest (Error.Initialization d)
  | Error.VersionNotFound d =>
    HandlerErrorResponse.badRequest (Error.VersionNotFound d)
  | Error.Internal d =>
    HandlerErrorResponse.internalServerError (Error.Internal d)

/-- C8: both HTTP handlers classify every core verification error into
exactly the three caller-visible classes the claim lists, and no error kind
is mapped to any other class (the mapping coincides with `claimedErrorClass`
on every constructor). -/
theorem handlers_error_classification :
    ∀ err : Error,
      multiPartClassifyError err = claimedErrorClass err ∧
      standardJsonClassifyError err = claimedErrorClass err := by
  intro err
  cases err <;> exact ⟨rfl, rfl⟩

def sampleRequestUpper : VerificationRequest :=
  { contract_address := "0xAB"
    creation_bytecode := Option.none
    compiler_version := { major := 0, minor := 8, patch := 2 }
    content := sampleContent }

/-- C9 counterexample: the submitted address `"0xAB"` reaches the
deployed-bytecode network capability as `"0xAB"`, not as its lower-cased
form `"0xab"`. -/
theorem verify_rpc_address_not_lowercased :
    (verify sampleClientAllNoMatch sampleEth 0 sampleRequestUpper).rpcAddress =
      "0xAB" ∧
    strToLower sampleRequestUpper.contract_address = "0xab" ∧
    (verify sampleClientAllNoMatch sampleEth 0 sampleRequestUpper).rpcAddress ≠
      strToLower sampleRequestUpper.contract_address := by
  refine ⟨rfl, by decide, ?_⟩
  intro h
  have hcontra : ("0xAB" : String) = "0xab" := by
    calc ("0xAB" : String)
        = (verify sampleClientAllNoMatch sampleEth 0
            sampleRequestUpper).rpcAddress := rfl
      _ = strToLower sampleRequestUpper.contract_address := h
      _ = "0xab" := by decide
  exact absurd hcontra (by decide)

/-- C9 (amended): the submitted `contract_address` is handed to the
deployed-bytecode network capability unchanged, on every path through
`verify`; lower-casing is applied only to the copy the HTTP handler records
to the database. -/
theorem verify_rpc_address_unchanged {σ : Type} (client : Client σ)
    (eth_get_code : String → Except String (Option String)) (hookState0 : σ)
    (request : VerificationRequest) :
    (verify client eth_get_code hookState0 request).rpcAddress =
      request.contract_address ∧
    multiPartDbRecordAddress request.contract_address =
      strToLower request.contract_address := by
  refine ⟨?_, rfl⟩
  rcases hg : get_Code eth_get_code request.contract_address with e | o
  · simp [verify, hg]
  · cases o with
    | none => simp [verify, hg]
    | some codeStr =>
      rcases hd : DisplayBytes.from_str codeStr with _ | bytes
      · simp [verify, hg, hd]
      · rcases hv : client.newVerifier request.compiler_version
            request.creation_bytecode bytes with e2 | verifier
        · simp [verify, hg, hd, hv]
        · rcases hr : (verifyInputsLoop verifier
              (settings_metadata request.compiler_version)
              request.content.toCompilerInputs).1 with e3 | s
          · simp [verify, hg, hd, hv, hr]
          · simp [verify, hg, hd, hv, hr]

end EvmosContracts
